import Mathlib

/-!
Verification of the dispatch / parameter-normalization core of the
discord-mcp repository (`src/core/UnifiedExecutor.ts` and
`src/core/ActionMappings.ts`).

Modelling conventions (shallow embedding of the TypeScript source):
- A JavaScript value is `Value` (string, number, boolean, plain object,
  `undefined`).  Numbers are modelled as `Int`; the code only inspects
  numbers via `typeof value === 'number'` and `String(value)`.
- A JavaScript object used as a parameter record is an insertion-ordered
  association list `ParamMap`.  `jsSet` is property assignment
  (`obj[k] = v`): it overwrites in place when the key exists, appends
  otherwise, exactly as JS objects preserve insertion order for
  non-numeric string keys.  `deleteKey` is the `delete` operator.
- Asynchronous methods of `AutomationManager` (an external collaborator,
  out of this repository's core) are opaque functions
  `List Value → Except String Value`: a fixed positional argument list in,
  a payload out or a failure carrying a message.  `Except.error` stands
  for a thrown/rejected `Error` whose `.message` is the string.
- The single `transform` closure that appears in the registry
  (`channel.create`) is defunctionalised into `TransformTag` so that
  registry well-formedness stays decidable; `applyTransformTag`
  interprets the tag by the very function from the source.
-/

namespace DiscordMCP

/-- A JavaScript runtime value, as far as the dispatch core inspects it. -/
inductive Value where
  | str (s : String)
  | num (n : Int)
  | boolean (b : Bool)
  | obj (fields : List (String × Value))
  | undef

/-- A JavaScript object in its role as a parameter record:
an insertion-ordered association list. -/
abbrev ParamMap := List (String × Value)

/-- Property read `m[k]`, as an `Option` (`none` = absent). -/
def getVal (m : ParamMap) (k : String) : Option Value :=
  (m.find? (fun kv => kv.1 == k)).map (fun kv => kv.2)

/-- Property read `m[k]` as JavaScript sees it: an absent key reads as
`undefined`. -/
def getParam (m : ParamMap) (k : String) : Value :=
  match getVal m k with
  | some v => v
  | none => Value.undef

/-- Whether the object has the key at all. -/
def hasKey (m : ParamMap) (k : String) : Bool :=
  (getVal m k).isSome

/-- The keys of the object in insertion order (`Object.keys`). -/
def keysOf (m : ParamMap) : List String :=
  m.map Prod.fst

/-- Property assignment `m[k] = v`: overwrite in place if the key exists
(JS keeps the key's original position), append otherwise. -/
def jsSet : ParamMap → String → Value → ParamMap
  | [], k, v => [(k, v)]
  | (k1, v1) :: rest, k, v =>
      if k1 == k then (k1, v) :: rest else (k1, v1) :: jsSet rest k v

/-- The `delete m[k]` operator. -/
def deleteKey (m : ParamMap) (k : String) : ParamMap :=
  m.filter (fun kv => !(kv.1 == k))

/-- Lookup in a JS object used as a constant table (`TABLE[k]`). -/
def lookupStr {α : Type} (m : List (String × α)) (k : String) : Option α :=
  (m.find? (fun kv => kv.1 == k)).map (fun kv => kv.2)

/-- `typeof v === 'number'`. -/
def isNum : Value → Bool
  | .num _ => true
  | _ => false

/-- `v !== undefined`. -/
def isDefined : Value → Bool
  | .undef => false
  | _ => true

/-- JavaScript truthiness of a value (`if (v)`). -/
def jsTruthy : Value → Bool
  | .str s => !(s == "")
  | .num n => !(n == 0)
  | .boolean b => b
  | .obj _ => true
  | .undef => false

/-- The string a value turns into when used as a property key / method
name (`obj[v]`); for the strings the code actually stores in `_method`
this is the identity. -/
def jsKeyString : Value → String
  | .str s => s
  | .num n => toString n
  | .boolean b => cond b "true" "false"
  | .obj _ => "[object Object]"
  | .undef => "undefined"

/-- `String(value)` on a number (`UnifiedExecutor.ts` line 82). -/
def numToString : Value → String
  | .num n => toString n
  | _ => ""

/-! ### Parameter normalisation (`UnifiedExecutor.ts` lines 54-89) -/

/-- Parameters that should be converted to strings (line 57). -/
def STRING_PARAMS : List String := ["count", "limit", "position", "volume"]

/-- Parameter aliases, user-friendly name to actual API parameter
(lines 62-66). -/
def PARAM_ALIASES : List (String × String) :=
  [("limit", "count"), ("content", "message"), ("text", "message")]

/-- `PARAM_ALIASES[key] || key` (line 78; no alias target is falsy). -/
def aliasKey (k : String) : String :=
  match lookupStr PARAM_ALIASES k with
  | some k2 => k2
  | none => k

/-- The per-entry value rewrite of `normalizeParams` (lines 81-85):
convert the value to a string iff the (post-alias) key is in
`STRING_PARAMS` and the value is a number. -/
def coerceVal (actualKey : String) (v : Value) : Value :=
  if STRING_PARAMS.contains actualKey && isNum v then
    Value.str (numToString v)
  else
    v

/-- `normalizeParams` (lines 73-89): fold over the entries of the input
object, writing each value under its post-alias key into a fresh object,
coercing listed numeric fields to strings. -/
def normalizeParams (params : ParamMap) : ParamMap :=
  params.foldl
    (fun normalized kv =>
      let actualKey := aliasKey kv.1
      jsSet normalized actualKey (coerceVal actualKey kv.2))
    []

/-! ### The action registry (`ActionMappings.ts`) -/

/-- The registry holds exactly one `transform` closure (`channel.create`,
`ActionMappings.ts` lines 92-106).  It is defunctionalised into a tag so
that facts about the registry remain decidable; `applyTransformTag`
interprets the tag. -/
inductive TransformTag where
  | channelCreate
deriving DecidableEq, Repr

/-- The `channel.create` transform (`ActionMappings.ts` lines 94-105):
pick the concrete create method from the `type` discriminator and record
it under `_method` (`{ ...params, _method: ... }`).  The source reads
`params.type as string || 'text'`; a non-string `type` is folded into
the `"text"` default here, which yields the same method
(`createTextChannel`) the source's failed table lookup falls back to. -/
def channelCreateTransform (params : ParamMap) : ParamMap :=
  let type :=
    match getVal params "type" with
    | some (Value.str s) => if s == "" then "text" else s
    | _ => "text"
  let methodMap : List (String × String) :=
    [("text", "createTextChannel"),
     ("voice", "createVoiceChannel"),
     ("forum", "createForumChannel"),
     ("announcement", "createAnnouncementChannel"),
     ("stage", "createStageChannel"),
     ("category", "createCategory")]
  let m :=
    match lookupStr methodMap type with
    | some m => m
    | none => "createTextChannel"
  jsSet params "_method" (Value.str m)

/-- Interpret a transform tag as the function from the source. -/
def applyTransformTag : TransformTag → ParamMap → ParamMap
  | .channelCreate, p => channelCreateTransform p

/-- `ActionMapping` (`ActionMappings.ts` lines 11-15). -/
structure ActionMapping where
  method : String
  paramMap : Option (List (String × String)) := none
  transform : Option TransformTag := none

/-- `OperationConfig` (`ActionMappings.ts` lines 17-20). -/
structure OperationConfig where
  actions : List (String × ActionMapping)
  queryResource : Option String := none

/-- `OPERATION_MAPPINGS` (`ActionMappings.ts` lines 25-403). -/
def OPERATION_MAPPINGS : List (String × OperationConfig) :=
  [("message",
    { actions :=
        [("send", { method := "sendMessage", paramMap := some [("content", "message")] }),
         ("edit", { method := "editMessage", paramMap := some [("content", "newMessage")] }),
         ("delete", { method := "deleteMessage" }),
         ("bulk_delete", { method := "bulkDeleteMessages" }),
         ("pin", { method := "pinMessage" }),
         ("unpin", { method := "unpinMessage" }),
         ("react", { method := "addReaction" }),
         ("unreact", { method := "removeReaction" }),
         ("crosspost", { method := "crosspostMessage" })],
      queryResource := some "messages" }),
   ("dm",
    { actions :=
        [("send", { method := "sendPrivateMessage", paramMap := some [("content", "message")] }),
         ("edit", { method := "editPrivateMessage", paramMap := some [("content", "newMessage")] }),
         ("delete", { method := "deletePrivateMessage" }),
         ("get_user_id", { method := "getUserIdByName" })],
      queryResource := some "dm_messages" }),
   ("channel",
    { actions :=
        [("create", { method := "createChannel", transform := some TransformTag.channelCreate }),
         ("edit", { method := "editChannelAdvanced" }),
         ("delete", { method := "deleteChannel" }),
         ("find", { method := "findChannel", paramMap := some [("name", "channelName")] }),
         ("move", { method := "moveChannelToCategory" }),
         ("set_position", { method := "setChannelPosition" }),
         ("set_positions", { method := "setChannelPositions", paramMap := some [("positions", "channelPositions")] }),
         ("set_private", { method := "setChannelPrivate" }),
         ("organize", { method := "organizeChannels" })],
      queryResource := some "channels" }),
   ("category",
    { actions :=
        [("create", { method := "createCategory" }),
         ("delete", { method := "deleteCategory" }),
         ("find", { method := "findCategory", paramMap := some [("name", "categoryName")] }),
         ("set_position", { method := "setCategoryPosition" }),
         ("set_private", { method := "setCategoryPrivate" }),
         ("list_channels", { method := "listChannelsInCategory" })] }),
   ("role",
    { actions :=
        [("create", { method := "createRole" }),
         ("edit", { method := "editRole" }),
         ("delete", { method := "deleteRole" }),
         ("set_positions", { method := "setRolePositions", paramMap := some [("positions", "rolePositions")] }),
         ("add_to_member", { method := "addRoleToMember" }),
         ("remove_from_member", { method := "removeRoleFromMember" })],
      queryResource := some "roles" }),
   ("member",
    { actions :=
        [("edit", { method := "editMember" }),
         ("search", { method := "searchMembers" })],
      queryResource := some "members" }),
   ("server",
    { actions :=
        [("edit", { method := "editServer" }),
         ("edit_welcome", { method := "editWelcomeScreen" })],
      queryResource := some "server" }),
   ("voice",
    { actions :=
        [("join", { method := "joinVoiceChannel" }),
         ("leave", { method := "leaveVoiceChannel" }),
         ("play", { method := "playAudio", paramMap := some [("url", "audioUrl")] }),
         ("stop", { method := "stopAudio" }),
         ("set_volume", { method := "setVolume" })],
      queryResource := some "voice_connections" }),
   ("moderation",
    { actions :=
        [("create_automod", { method := "createAutomodRule" }),
         ("edit_automod", { method := "editAutomodRule" }),
         ("delete_automod", { method := "deleteAutomodRule" }),
         ("bulk_privacy", { method := "bulkSetPrivacy" }),
         ("comprehensive", { method := "comprehensiveChannelManagement" })],
      queryResource := some "automod_rules" }),
   ("webhook",
    { actions :=
        [("create", { method := "createWebhook" }),
         ("delete", { method := "deleteWebhook" }),
         ("send", { method := "sendWebhookMessage", paramMap := some [("content", "message")] })],
      queryResource := some "webhooks" }),
   ("event",
    { actions :=
        [("create", { method := "createEvent" }),
         ("edit", { method := "editEvent" }),
         ("delete", { method := "deleteEvent" })],
      queryResource := some "events" }),
   ("emoji",
    { actions :=
        [("create", { method := "createEmoji" }),
         ("delete", { method := "deleteEmoji" })],
      queryResource := some "emojis" }),
   ("sticker",
    { actions :=
        [("create", { method := "createSticker" }),
         ("delete", { method := "deleteSticker" })],
      queryResource := some "stickers" }),
   ("invite",
    { actions :=
        [("create", { method := "createInvite" }),
         ("delete", { method := "deleteInvite" })],
      queryResource := some "invites" }),
   ("file",
    { actions :=
        [("upload", { method := "uploadFile" }),
         ("get_attachments", { method := "getMessageAttachments" }),
         ("read_images", { method := "readImages" })] }),
   ("interactive",
    { actions :=
        [("send_embed", { method := "sendEmbed" }),
         ("send_button", { method := "sendButton" }),
         ("send_select_menu", { method := "sendSelectMenu" }),
         ("send_modal", { method := "sendModal" })] }),
   ("analytics",
    { actions :=
        [("export_chat", { method := "exportChatLog" }),
         ("get_history", { method := "getMessageHistory" })] })]

/-- One entry of `QUERY_MAPPINGS` (`ActionMappings.ts` line 408). -/
structure QueryMapping where
  method : String
  paramMap : Option (List (String × String)) := none

/-- `QUERY_MAPPINGS` (`ActionMappings.ts` lines 408-477). -/
def QUERY_MAPPINGS : List (String × QueryMapping) :=
  [("messages", { method := "readMessages", paramMap := some [("limit", "count")] }),
   ("pinned_messages", { method := "getPinnedMessages" }),
   ("message_history", { method := "getMessageHistory" }),
   ("attachments", { method := "getMessageAttachments" }),
   ("dm_messages", { method := "readPrivateMessages", paramMap := some [("limit", "count")] }),
   ("channels", { method := "listChannels" }),
   ("channel_structure", { method := "getChannelStructure" }),
   ("category_channels", { method := "listChannelsInCategory" }),
   ("members", { method := "getMembers" }),
   ("member", { method := "getMemberInfo" }),
   ("roles", { method := "getRoles" }),
   ("server", { method := "getServerInfo" }),
   ("server_stats", { method := "getServerStats" }),
   ("server_widget", { method := "getServerWidget" }),
   ("welcome_screen", { method := "getWelcomeScreen" }),
   ("events", { method := "getEvents" }),
   ("invites", { method := "getInvites" }),
   ("webhooks", { method := "listWebhooks" }),
   ("emojis", { method := "getEmojis" }),
   ("stickers", { method := "getStickers" }),
   ("automod_rules", { method := "getAutomodRules" }),
   ("voice_connections", { method := "getVoiceConnections" })]

/-- `getValidOperations` (`ActionMappings.ts` lines 482-484). -/
def getValidOperations : List String :=
  OPERATION_MAPPINGS.map Prod.fst

/-- `getValidActions` (`ActionMappings.ts` lines 489-492). -/
def getValidActions (operation : String) : List String :=
  match lookupStr OPERATION_MAPPINGS operation with
  | some config => config.actions.map Prod.fst
  | none => []

/-- `getValidQueryResources` (`ActionMappings.ts` lines 497-499). -/
def getValidQueryResources : List String :=
  QUERY_MAPPINGS.map Prod.fst

/-- `paramMap[newKey] || newKey` (`ActionMappings.ts` line 532; no rename
target in the registry is falsy). -/
def renameKey (pm : List (String × String)) (k : String) : String :=
  match lookupStr pm k with
  | some k2 => k2
  | none => k

/-- The key-rename loop of `resolveAction`/`resolveQuery`
(`ActionMappings.ts` lines 530-535): rebuild the object, writing each
value under its renamed key. -/
def applyParamMap (pm : List (String × String)) (params : ParamMap) : ParamMap :=
  params.foldl (fun mapped kv => jsSet mapped (renameKey pm kv.1) kv.2) []

/-- The two registry lookups at the head of `resolveAction`
(`ActionMappings.ts` lines 509-513). -/
def getActionMapping (operation action : String) : Option ActionMapping :=
  match lookupStr OPERATION_MAPPINGS operation with
  | none => none
  | some config => lookupStr config.actions action

/-- `resolveAction` (`ActionMappings.ts` lines 504-539): apply the
action's transform if any, honour a truthy `_method` override (deleting
the key), then apply the key-rename table. -/
def resolveAction (operation action : String) (params : ParamMap) :
    Option (String × ParamMap) :=
  match getActionMapping operation action with
  | none => none
  | some actionConfig =>
    let transformedParams :=
      match actionConfig.transform with
      | some t => applyTransformTag t params
      | none => params
    let methodAndParams :=
      if jsTruthy (getParam transformedParams "_method") then
        (jsKeyString (getParam transformedParams "_method"),
         deleteKey transformedParams "_method")
      else
        (actionConfig.method, transformedParams)
    let finalParams :=
      match actionConfig.paramMap with
      | some pm => applyParamMap pm methodAndParams.2
      | none => methodAndParams.2
    some (methodAndParams.1, finalParams)

/-- `resolveQuery` (`ActionMappings.ts` lines 544-564). -/
def resolveQuery (resource : String) (filters : ParamMap) :
    Option (String × ParamMap) :=
  match lookupStr QUERY_MAPPINGS resource with
  | none => none
  | some config =>
    let transformedParams :=
      match config.paramMap with
      | some pm => applyParamMap pm filters
      | none => filters
    some (config.method, transformedParams)

/-! ### The unified executor (`UnifiedExecutor.ts`) -/

/-- `ExecuteParams` (`UnifiedExecutor.ts` lines 18-22). -/
structure ExecuteParams where
  operation : String
  action : String
  params : ParamMap

/-- `QueryParams` (`UnifiedExecutor.ts` lines 24-28). -/
structure QueryParams where
  resource : String
  filters : ParamMap := []
  limit : Option Int := none

/-- `BatchOperation` (`UnifiedExecutor.ts` lines 30-34). -/
structure BatchOperation where
  operation : String
  action : String
  params : ParamMap

/-- `BatchParams` (`UnifiedExecutor.ts` lines 36-39); `stopOnError = none`
models an omitted flag, which defaults to `true`. -/
structure BatchParams where
  operations : List BatchOperation
  stopOnError : Option Bool := none

/-- `ExecutionResult` (`UnifiedExecutor.ts` lines 41-45). -/
structure ExecutionResult where
  success : Bool
  data : Option Value := none
  error : Option String := none

/-- `BatchResult` (`UnifiedExecutor.ts` lines 47-52). -/
structure BatchResult where
  success : Bool
  results : List ExecutionResult
  completedCount : Nat
  failedCount : Nat

/-- The `parameterOrders` table of `extractParamValues`
(`UnifiedExecutor.ts` lines 285-413): each method's fixed positional
parameter order. -/
def parameterOrders : List (String × List String) :=
  [("sendMessage", ["channelId", "message"]),
   ("editMessage", ["channelId", "messageId", "newMessage"]),
   ("deleteMessage", ["channelId", "messageId"]),
   ("readMessages", ["channelId", "count"]),
   ("pinMessage", ["channelId", "messageId"]),
   ("unpinMessage", ["channelId", "messageId"]),
   ("getPinnedMessages", ["channelId"]),
   ("bulkDeleteMessages", ["channelId", "messageIds", "filterOld"]),
   ("crosspostMessage", ["channelId", "messageId"]),
   ("addReaction", ["channelId", "messageId", "emoji"]),
   ("removeReaction", ["channelId", "messageId", "emoji"]),
   ("getUserIdByName", ["username", "guildId"]),
   ("sendPrivateMessage", ["userId", "message"]),
   ("editPrivateMessage", ["userId", "messageId", "newMessage"]),
   ("deletePrivateMessage", ["userId", "messageId"]),
   ("readPrivateMessages", ["userId", "count"]),
   ("createTextChannel", ["guildId", "name", "categoryId"]),
   ("createVoiceChannel", ["guildId", "name", "categoryId", "userLimit", "bitrate"]),
   ("createForumChannel", ["guildId", "name", "categoryId", "options"]),
   ("createAnnouncementChannel", ["guildId", "name", "categoryId", "options"]),
   ("createStageChannel", ["guildId", "name", "categoryId", "options"]),
   ("editChannelAdvanced", ["guildId", "channelId", "options"]),
   ("deleteChannel", ["guildId", "channelId"]),
   ("findChannel", ["guildId", "channelName"]),
   ("listChannels", ["guildId"]),
   ("setChannelPosition", ["guildId", "channelId", "position"]),
   ("setChannelPositions", ["guildId", "channelPositions"]),
   ("moveChannelToCategory", ["guildId", "channelId", "categoryId"]),
   ("organizeChannels", ["guildId", "organization"]),
   ("getChannelStructure", ["guildId"]),
   ("createCategory", ["guildId", "name"]),
   ("deleteCategory", ["guildId", "categoryId"]),
   ("findCategory", ["guildId", "categoryName"]),
   ("listChannelsInCategory", ["guildId", "categoryId"]),
   ("setCategoryPosition", ["guildId", "categoryId", "position"]),
   ("setChannelPrivate", ["guildId", "channelId", "options"]),
   ("setCategoryPrivate", ["guildId", "categoryId", "options"]),
   ("bulkSetPrivacy", ["guildId", "targets"]),
   ("comprehensiveChannelManagement", ["guildId", "operations"]),
   ("createRole", ["guildId", "name", "color", "permissions"]),
   ("deleteRole", ["guildId", "roleId"]),
   ("editRole", ["guildId", "roleId", "name", "color", "permissions"]),
   ("addRoleToMember", ["guildId", "userId", "roleId"]),
   ("removeRoleFromMember", ["guildId", "userId", "roleId"]),
   ("getRoles", ["guildId"]),
   ("setRolePositions", ["guildId", "rolePositions"]),
   ("getMembers", ["guildId", "limit", "after"]),
   ("searchMembers", ["guildId", "query", "limit"]),
   ("editMember", ["guildId", "userId", "nickname", "roles"]),
   ("getMemberInfo", ["guildId", "userId"]),
   ("joinVoiceChannel", ["guildId", "channelId"]),
   ("leaveVoiceChannel", ["guildId", "channelId"]),
   ("playAudio", ["guildId", "audioUrl"]),
   ("stopAudio", ["guildId"]),
   ("setVolume", ["guildId", "volume"]),
   ("getVoiceConnections", []),
   ("createEvent", ["guildId", "name", "description", "startTime", "endTime", "location", "channelId"]),
   ("editEvent", ["guildId", "eventId", "name", "description", "startTime", "endTime", "location"]),
   ("deleteEvent", ["guildId", "eventId"]),
   ("getEvents", ["guildId"]),
   ("createInvite", ["channelId", "maxAge", "maxUses", "temporary"]),
   ("deleteInvite", ["inviteCode"]),
   ("getInvites", ["guildId"]),
   ("createWebhook", ["channelId", "name"]),
   ("deleteWebhook", ["webhookId"]),
   ("listWebhooks", ["channelId"]),
   ("sendWebhookMessage", ["webhookUrl", "message"]),
   ("createEmoji", ["guildId", "name", "imageUrl", "roles"]),
   ("deleteEmoji", ["guildId", "emojiId"]),
   ("getEmojis", ["guildId"]),
   ("createSticker", ["guildId", "name", "description", "tags", "imageUrl"]),
   ("deleteSticker", ["guildId", "stickerId"]),
   ("getStickers", ["guildId"]),
   ("uploadFile", ["channelId", "filePath", "fileName", "content"]),
   ("getMessageAttachments", ["channelId", "messageId"]),
   ("readImages", ["channelId", "messageId", "limit", "includeMetadata", "downloadImages"]),
   ("createAutomodRule", ["guildId", "name", "eventType", "triggerType", "keywordFilter", "presets", "allowList", "mentionLimit", "enabled"]),
   ("editAutomodRule", ["guildId", "ruleId", "name", "enabled", "keywordFilter", "allowList", "mentionLimit"]),
   ("deleteAutomodRule", ["guildId", "ruleId"]),
   ("getAutomodRules", ["guildId"]),
   ("getServerInfo", ["guildId"]),
   ("editServer", ["guildId", "name", "description", "icon", "banner", "verificationLevel"]),
   ("getServerStats", ["guildId"]),
   ("getServerWidget", ["guildId"]),
   ("getWelcomeScreen", ["guildId"]),
   ("editWelcomeScreen", ["guildId", "enabled", "description", "welcomeChannels"]),
   ("sendEmbed", ["channelId", "title", "description", "color", "fields", "footer", "image", "thumbnail"]),
   ("sendButton", ["channelId", "content", "buttons"]),
   ("sendSelectMenu", ["channelId", "content", "customId", "placeholder", "minValues", "maxValues", "options"]),
   ("sendModal", ["interactionId", "title", "customId", "components"]),
   ("getMessageHistory", ["channelId", "limit", "before", "after"]),
   ("exportChatLog", ["channelId", "format", "limit", "dateRange"])]

/-- The optional sub-keys packed into the synthetic `options` slot
(`UnifiedExecutor.ts` lines 423-425). -/
def optionKeys : List String :=
  ["topic", "slowmode", "userLimit", "bitrate", "isPrivate", "allowedRoles",
   "allowedMembers", "syncToCategory", "applyToChannels", "categoryId",
   "defaultReactionEmoji", "nsfw", "rateLimitPerUser"]

/-- The options-packing loop (`UnifiedExecutor.ts` lines 426-431): copy
every present sub-key into a fresh object. -/
def packOptions (params : ParamMap) : ParamMap :=
  optionKeys.foldl
    (fun options key =>
      if isDefined (getParam params key) then
        jsSet options key (getParam params key)
      else
        options)
    []

/-- `extractParamValues` (`UnifiedExecutor.ts` lines 282-442): order the
parameter values positionally; with an `options` slot, pack the optional
sub-keys (or `undefined` if none); with no declared order, fall back to
`Object.values(params)`. -/
def extractParamValues (methodName : String) (params : ParamMap) : List Value :=
  match lookupStr parameterOrders methodName with
  | none => params.map (fun kv => kv.2)
  | some order =>
    if order.contains "options" then
      let options := packOptions params
      order.map (fun key =>
        if key == "options" then
          if options.length > 0 then Value.obj options else Value.undef
        else getParam params key)
    else
      order.map (fun key => getParam params key)

/-- The external collaborator (`AutomationManager`): a record of named
asynchronous operations, each taking a positional argument list and
returning a payload or raising a failure with a message. -/
structure AutomationManager where
  methods : String → Option (List Value → Except String Value)

/-- `callMethod` (`UnifiedExecutor.ts` lines 257-277): look the method up
by name (a miss throws `Method '<name>' not found in AutomationManager`),
order the arguments, invoke. -/
def callMethod (am : AutomationManager) (methodName : String)
    (params : ParamMap) : Except String Value :=
  match am.methods methodName with
  | none => Except.error ("Method '" ++ methodName ++ "' not found in AutomationManager")
  | some f => f (extractParamValues methodName params)

/-- `execute` (`UnifiedExecutor.ts` lines 104-153). -/
def execute (am : AutomationManager) (p : ExecuteParams) : ExecutionResult :=
  if !(getValidOperations.contains p.operation) then
    { success := false,
      error := some ("Invalid operation: '" ++ p.operation ++ "'. Valid operations: "
        ++ String.intercalate ", " getValidOperations) }
  else
    let validActions := getValidActions p.operation
    if !(validActions.contains p.action) then
      { success := false,
        error := some ("Invalid action '" ++ p.action ++ "' for operation '"
          ++ p.operation ++ "'. Valid actions: " ++ String.intercalate ", " validActions) }
    else
      let normalizedParams := normalizeParams p.params
      match resolveAction p.operation p.action normalizedParams with
      | none =>
        { success := false,
          error := some ("Failed to resolve action: " ++ p.operation ++ "." ++ p.action) }
      | some resolved =>
        match callMethod am resolved.1 resolved.2 with
        | Except.ok result => { success := true, data := some result }
        | Except.error e => { success := false, error := some e }

/-- The filter object `query` builds before normalising
(`UnifiedExecutor.ts` lines 169-173): copy the filters and add `limit`
if provided. -/
def buildQueryFilters (filters : ParamMap) (limit : Option Int) : ParamMap :=
  match limit with
  | some n => jsSet filters "limit" (Value.num n)
  | none => filters

/-- `query` (`UnifiedExecutor.ts` lines 158-200). -/
def query (am : AutomationManager) (p : QueryParams) : ExecutionResult :=
  if !(getValidQueryResources.contains p.resource) then
    { success := false,
      error := some ("Invalid resource: '" ++ p.resource ++ "'. Valid resources: "
        ++ String.intercalate ", " getValidQueryResources) }
  else
    let normalizedFilters := normalizeParams (buildQueryFilters p.filters p.limit)
    match resolveQuery p.resource normalizedFilters with
    | none =>
      { success := false,
        error := some ("Failed to resolve query for resource: " ++ p.resource) }
    | some resolved =>
      match callMethod am resolved.1 resolved.2 with
      | Except.ok result => { success := true, data := some result }
      | Except.error e => { success := false, error := some e }

/-- The `execute` call the batch loop makes for one list item
(`UnifiedExecutor.ts` lines 212-216). -/
def execOf (am : AutomationManager) (op : BatchOperation) : ExecutionResult :=
  execute am { operation := op.operation, action := op.action, params := op.params }

/-- The batch loop (`UnifiedExecutor.ts` lines 211-228), with the result
list and the two counters as accumulators; a failure breaks out when
`stopOnError` holds. -/
def batchGo (am : AutomationManager) (stopOnError : Bool) :
    List BatchOperation → List ExecutionResult → Nat → Nat →
    List ExecutionResult × Nat × Nat
  | [], results, completedCount, failedCount => (results, completedCount, failedCount)
  | op :: rest, results, completedCount, failedCount =>
    let result := execOf am op
    if result.success then
      batchGo am stopOnError rest (results ++ [result]) (completedCount + 1) failedCount
    else if stopOnError then
      (results ++ [result], completedCount, failedCount + 1)
    else
      batchGo am stopOnError rest (results ++ [result]) completedCount (failedCount + 1)

/-- `batch` (`UnifiedExecutor.ts` lines 205-236). -/
def batch (am : AutomationManager) (p : BatchParams) : BatchResult :=
  let stopOnError := p.stopOnError.getD true
  match batchGo am stopOnError p.operations [] 0 0 with
  | (results, completedCount, failedCount) =>
    { success := failedCount == 0,
      results := results,
      completedCount := completedCount,
      failedCount := failedCount }

/-! ### Machinery: properties of `jsSet` and of object-rebuilding folds

Both `normalizeParams` and the key-rename loop of
`resolveAction`/`resolveQuery` are folds of the shape
`l.foldl (fun acc kv => jsSet acc (F kv.1) (G kv)) []`; `jsBuild`
abstracts that shape so they can share lemmas. -/

def jsBuild (F : String → String) (G : String × Value → Value) (l : ParamMap) : ParamMap :=
  l.foldl (fun acc kv => jsSet acc (F kv.1) (G kv)) []

lemma normalizeParams_eq_jsBuild (p : ParamMap) :
    normalizeParams p = jsBuild aliasKey (fun kv => coerceVal (aliasKey kv.1) kv.2) p := rfl

lemma applyParamMap_eq_jsBuild (pm : List (String × String)) (p : ParamMap) :
    applyParamMap pm p = jsBuild (renameKey pm) (fun kv => kv.2) p := rfl

lemma getVal_jsSet_self (m : ParamMap) (k : String) (v : Value) :
    getVal (jsSet m k v) k = some v := by
  induction m with
  | nil => simp [jsSet, getVal]
  | cons kv rest ih =>
    obtain ⟨k1, v1⟩ := kv
    by_cases h : k1 = k
    · subst h
      simp [jsSet, getVal]
    · have hb : (k1 == k) = false := beq_eq_false_iff_ne.mpr h
      simp only [jsSet, hb, Bool.false_eq_true, if_false]
      simpa [getVal, List.find?, hb] using ih

lemma getVal_jsSet_ne (m : ParamMap) (k k' : String) (v : Value) (h : k' ≠ k) :
    getVal (jsSet m k v) k' = getVal m k' := by
  induction m with
  | nil =>
    simp [jsSet, getVal, List.find?, beq_eq_false_iff_ne.mpr (Ne.symm h)]
  | cons kv rest ih =>
    obtain ⟨k1, v1⟩ := kv
    by_cases h1 : k1 = k
    · subst h1
      have hb : (k1 == k') = false := beq_eq_false_iff_ne.mpr (fun he => h he.symm)
      simp [jsSet, getVal, List.find?, hb]
    · have hb1 : (k1 == k) = false := beq_eq_false_iff_ne.mpr h1
      simp only [jsSet, hb1, Bool.false_eq_true, if_false]
      by_cases h2 : k1 = k'
      · subst h2
        simp [getVal, List.find?]
      · have hb2 : (k1 == k') = false := beq_eq_false_iff_ne.mpr h2
        simpa [getVal, List.find?, hb2] using ih

lemma jsSet_of_not_mem (m : ParamMap) (k : String) (v : Value)
    (h : k ∉ keysOf m) : jsSet m k v = m ++ [(k, v)] := by
  induction m with
  | nil => rfl
  | cons kv rest ih =>
    obtain ⟨k1, v1⟩ := kv
    simp only [keysOf, List.map_cons, List.mem_cons, not_or] at h
    have hb : (k1 == k) = false := beq_eq_false_iff_ne.mpr (fun he => h.1 he.symm)
    simp only [jsSet, hb, Bool.false_eq_true, if_false, List.cons_append,
      List.cons.injEq, true_and]
    exact ih h.2

lemma keysOf_jsSet_of_mem (m : ParamMap) (k : String) (v : Value)
    (h : k ∈ keysOf m) : keysOf (jsSet m k v) = keysOf m := by
  induction m with
  | nil => simp [keysOf] at h
  | cons kv rest ih =>
    obtain ⟨k1, v1⟩ := kv
    by_cases h1 : k1 = k
    · subst h1
      simp [jsSet, keysOf]
    · have hb : (k1 == k) = false := beq_eq_false_iff_ne.mpr h1
      simp only [keysOf, List.map_cons, List.mem_cons] at h
      rcases h with h | h
      · exact absurd h.symm h1
      · simp only [jsSet, hb, Bool.false_eq_true, if_false, keysOf, List.map_cons,
          List.cons.injEq, true_and]
        exact ih h

lemma mem_jsSet (m : ParamMap) (k : String) (v : Value) (kv' : String × Value)
    (h : kv' ∈ jsSet m k v) : kv' ∈ m ∨ kv' = (k, v) := by
  induction m with
  | nil =>
    simp [jsSet] at h
    exact Or.inr h
  | cons kv rest ih =>
    obtain ⟨k1, v1⟩ := kv
    by_cases h1 : k1 = k
    · subst h1
      simp only [jsSet, beq_self_eq_true, if_true, List.mem_cons] at h
      rcases h with h | h
      · exact Or.inr h
      · exact Or.inl (List.mem_cons_of_mem _ h)
    · have hb : (k1 == k) = false := beq_eq_false_iff_ne.mpr h1
      simp only [jsSet, hb, Bool.false_eq_true, if_false, List.mem_cons] at h
      rcases h with h | h
      · exact Or.inl (by simp [h])
      · rcases ih h with h2 | h2
        · exact Or.inl (List.mem_cons_of_mem _ h2)
        · exact Or.inr h2

lemma nodup_keysOf_jsSet (m : ParamMap) (k : String) (v : Value)
    (h : (keysOf m).Nodup) : (keysOf (jsSet m k v)).Nodup := by
  by_cases hm : k ∈ keysOf m
  · rw [keysOf_jsSet_of_mem m k v hm]
    exact h
  · rw [jsSet_of_not_mem m k v hm]
    simp only [keysOf, List.map_append, List.map_cons, List.map_nil]
    rw [List.nodup_append]
    refine ⟨h, List.nodup_singleton _, ?_⟩
    intro a ha hb
    simp only [List.mem_singleton] at hb
    subst hb
    exact hm ha

lemma jsBuild_append_singleton (F : String → String) (G : String × Value → Value)
    (l : ParamMap) (kv : String × Value) :
    jsBuild F G (l ++ [kv]) = jsSet (jsBuild F G l) (F kv.1) (G kv) := by
  simp [jsBuild, List.foldl_append]

lemma getVal_jsBuild (F : String → String) (G : String × Value → Value)
    (l : ParamMap) (k : String) :
    getVal (jsBuild F G l) k =
      (l.reverse.find? (fun kv => F kv.1 == k)).map G := by
  induction l using List.reverseRecOn with
  | nil => simp [jsBuild, getVal]
  | append_singleton l kv ih =>
    rw [jsBuild_append_singleton, List.reverse_append, List.reverse_singleton,
      List.singleton_append]
    by_cases h : F kv.1 = k
    · rw [← h, getVal_jsSet_self, List.find?_cons_of_pos _ (by simp)]
      rfl
    · have hb : (F kv.1 == k) = false := beq_eq_false_iff_ne.mpr h
      rw [getVal_jsSet_ne _ _ _ _ (fun he => h he.symm), ih,
        List.find?_cons_of_neg _ (by simp [hb])]

lemma mem_jsBuild (F : String → String) (G : String × Value → Value)
    (l : ParamMap) (kv' : String × Value) (h : kv' ∈ jsBuild F G l) :
    ∃ kv ∈ l, kv' = (F kv.1, G kv) := by
  induction l using List.reverseRecOn with
  | nil => simp [jsBuild] at h
  | append_singleton l kv ih =>
    rw [jsBuild_append_singleton] at h
    rcases mem_jsSet _ _ _ _ h with h2 | h2
    · obtain ⟨kv0, hm, he⟩ := ih h2
      exact ⟨kv0, by simp [hm], he⟩
    · exact ⟨kv, by simp, h2⟩

lemma nodup_keysOf_jsBuild (F : String → String) (G : String × Value → Value)
    (l : ParamMap) : (keysOf (jsBuild F G l)).Nodup := by
  induction l using List.reverseRecOn with
  | nil => simp [jsBuild, keysOf]
  | append_singleton l kv ih =>
    rw [jsBuild_append_singleton]
    exact nodup_keysOf_jsSet _ _ _ ih

lemma jsBuild_eq_map (F : String → String) (G : String × Value → Value)
    (l : ParamMap) (hinj : (l.map (fun kv => F kv.1)).Nodup) :
    jsBuild F G l = l.map (fun kv => (F kv.1, G kv)) := by
  induction l using List.reverseRecOn with
  | nil => rfl
  | append_singleton l kv ih =>
    simp only [List.map_append, List.map_cons, List.map_nil] at hinj
    rw [List.nodup_append] at hinj
    obtain ⟨h1, _, h3⟩ := hinj
    rw [jsBuild_append_singleton, ih h1, jsSet_of_not_mem, List.map_append]
    · rfl
    · simp only [keysOf, List.map_map]
      intro hmem
      simp only [List.mem_map, Function.comp] at hmem
      obtain ⟨kv0, hkv0, hke⟩ := hmem
      exact h3 (List.mem_map.mpr ⟨kv0, hkv0, hke⟩) (by simp)

lemma getVal_mapKeys (l : ParamMap) (F : String → String) (k : String)
    (hk : k ∈ keysOf l) (hinj : (l.map (fun kv => F kv.1)).Nodup) :
    getVal (l.map (fun kv => (F kv.1, kv.2))) (F k) = getVal l k := by
  induction l with
  | nil => simp [keysOf] at hk
  | cons kv t ih =>
    obtain ⟨k1, v1⟩ := kv
    simp only [List.map_cons, List.nodup_cons] at hinj
    by_cases h : F k1 = F k
    · by_cases hkk : k1 = k
      · subst hkk
        simp [getVal, List.find?]
      · exfalso
        simp only [keysOf, List.map_cons, List.mem_cons] at hk
        rcases hk with hk | hk
        · exact hkk hk.symm
        · refine hinj.1 ?_
          obtain ⟨kv0, hkv0, hke⟩ := List.mem_map.mp hk
          rw [h]
          exact List.mem_map.mpr ⟨kv0, hkv0, by rw [hke]⟩
    · have hb : (F k1 == F k) = false := beq_eq_false_iff_ne.mpr h
      have hkk : k1 ≠ k := fun he => h (by rw [he])
      have hbk : (k1 == k) = false := beq_eq_false_iff_ne.mpr hkk
      simp only [getVal, List.map_cons, List.find?, hb, hbk]
      have hk2 : k ∈ keysOf t := by
        simp only [keysOf, List.map_cons, List.mem_cons] at hk
        rcases hk with hk | hk
        · exact absurd hk.symm hkk
        · exact hk
      exact ih hk2 hinj.2

lemma lookupStr_mem {α : Type} {m : List (String × α)} {k : String} {v : α}
    (h : lookupStr m k = some v) : (k, v) ∈ m := by
  unfold lookupStr at h
  cases hf : m.find? (fun kv => kv.1 == k) with
  | none => rw [hf] at h; simp at h
  | some kv =>
    rw [hf] at h
    simp only [Option.map_some'] at h
    have hmem := List.mem_of_find?_eq_some hf
    have hp := List.find?_some hf
    obtain ⟨k1, v1⟩ := kv
    have hk : k1 = k := by simpa using hp
    have hv : v1 = v := by simpa using h
    subst hk
    subst hv
    exact hmem

/-! ### Facts about the alias table and the numeric coercion -/

lemma aliasKey_idem (k : String) : aliasKey (aliasKey k) = aliasKey k := by
  cases hf : lookupStr PARAM_ALIASES k with
  | none =>
    have h1 : aliasKey k = k := by unfold aliasKey; rw [hf]
    rw [h1]
    exact h1
  | some k2 =>
    have h1 : aliasKey k = k2 := by unfold aliasKey; rw [hf]
    rw [h1]
    have hmem := lookupStr_mem hf
    simp only [PARAM_ALIASES, List.mem_cons, List.mem_singleton, Prod.mk.injEq,
      List.not_mem_nil, or_false] at hmem
    rcases hmem with ⟨_, rfl⟩ | ⟨_, rfl⟩ | ⟨_, rfl⟩ <;> rfl

lemma aliasKey_ne_source (a : String) (ha : a ∈ PARAM_ALIASES.map Prod.fst)
    (k : String) : aliasKey k ≠ a := by
  cases hf : lookupStr PARAM_ALIASES k with
  | none =>
    have h1 : aliasKey k = k := by unfold aliasKey; rw [hf]
    rw [h1]
    intro he
    subst he
    obtain ⟨e, hmem, hee⟩ := List.mem_map.mp ha
    unfold lookupStr at hf
    rw [Option.map_eq_none', List.find?_eq_none] at hf
    exact hf e hmem (by simp [hee])
  | some k2 =>
    have h1 : aliasKey k = k2 := by unfold aliasKey; rw [hf]
    rw [h1]
    have hmem2 := lookupStr_mem hf
    intro he
    subst he
    simp only [PARAM_ALIASES, List.mem_cons, List.mem_singleton, Prod.mk.injEq,
      List.not_mem_nil, or_false] at hmem2
    rcases hmem2 with ⟨_, rfl⟩ | ⟨_, rfl⟩ | ⟨_, rfl⟩ <;> simp [PARAM_ALIASES] at ha

lemma aliasKey_target_fixed {a c : String} (h : (a, c) ∈ PARAM_ALIASES) :
    aliasKey c = c := by
  simp only [PARAM_ALIASES, List.mem_cons, List.mem_singleton, Prod.mk.injEq,
    List.not_mem_nil, or_false] at h
  rcases h with ⟨_, rfl⟩ | ⟨_, rfl⟩ | ⟨_, rfl⟩ <;> rfl

lemma aliasKey_eq_count_iff (k : String) :
    aliasKey k = "count" ↔ (k = "limit" ∨ k = "count") := by
  cases hf : lookupStr PARAM_ALIASES k with
  | none =>
    have h1 : aliasKey k = k := by unfold aliasKey; rw [hf]
    rw [h1]
    constructor
    · intro h
      exact Or.inr h
    · intro h
      rcases h with h | h
      · subst h
        rw [show lookupStr PARAM_ALIASES "limit" = some "count" from rfl] at hf
        exact Option.noConfusion hf
      · exact h
  | some k2 =>
    have h1 : aliasKey k = k2 := by unfold aliasKey; rw [hf]
    rw [h1]
    have hmem := lookupStr_mem hf
    simp only [PARAM_ALIASES, List.mem_cons, List.mem_singleton, Prod.mk.injEq,
      List.not_mem_nil, or_false] at hmem
    rcases hmem with ⟨rfl, rfl⟩ | ⟨rfl, rfl⟩ | ⟨rfl, rfl⟩ <;> simp

lemma coerceVal_idem (k : String) (v : Value) :
    coerceVal k (coerceVal k v) = coerceVal k v := by
  unfold coerceVal
  by_cases h : (STRING_PARAMS.contains k && isNum v) = true
  · rw [if_pos h, if_neg (by simp [isNum])]
  · rw [if_neg h, if_neg h]

lemma mem_normalizeParams {p : ParamMap} {kv : String × Value}
    (h : kv ∈ normalizeParams p) :
    aliasKey kv.1 = kv.1 ∧ coerceVal kv.1 kv.2 = kv.2 := by
  rw [normalizeParams_eq_jsBuild] at h
  obtain ⟨kv0, _, rfl⟩ := mem_jsBuild _ _ _ _ h
  exact ⟨aliasKey_idem kv0.1, coerceVal_idem _ _⟩

/-- C8: the parameter normaliser (`normalizeParams`,
`UnifiedExecutor.ts` lines 73-89) is idempotent: applying alias renaming
followed by numeric-to-string coercion (keyed on the post-alias name) a
second time changes nothing, for every parameter mapping. -/
theorem normalize_idempotent (p : ParamMap) :
    normalizeParams (normalizeParams p) = normalizeParams p := by
  have hkeys : ((normalizeParams p).map (fun kv => aliasKey kv.1)) = keysOf (normalizeParams p) :=
    List.map_congr_left (fun kv hkv => (mem_normalizeParams hkv).1)
  have hnd : ((normalizeParams p).map (fun kv => aliasKey kv.1)).Nodup := by
    rw [hkeys, normalizeParams_eq_jsBuild]
    exact nodup_keysOf_jsBuild _ _ _
  calc normalizeParams (normalizeParams p)
      = (normalizeParams p).map (fun kv => (aliasKey kv.1, coerceVal (aliasKey kv.1) kv.2)) := by
        rw [normalizeParams_eq_jsBuild (normalizeParams p)]
        exact jsBuild_eq_map _ _ _ hnd
    _ = (normalizeParams p).map id := by
        apply List.map_congr_left
        intro kv hkv
        obtain ⟨h1, h2⟩ := mem_normalizeParams hkv
        rw [h1, h2]
        rfl
    _ = normalizeParams p := List.map_id _

lemma hasKey_iff (m : ParamMap) (k : String) :
    hasKey m k = true ↔ k ∈ keysOf m := by
  unfold hasKey getVal keysOf
  rw [Option.isSome_map', List.find?_isSome]
  constructor
  · intro h
    obtain ⟨kv, hm, hp⟩ := h
    have : kv.1 = k := by simpa using hp
    exact this ▸ List.mem_map.mpr ⟨kv, hm, rfl⟩
  · intro h
    obtain ⟨kv, hm, hk⟩ := List.mem_map.mp h
    exact ⟨kv, hm, by simp [hk]⟩

lemma not_hasKey_iff (m : ParamMap) (k : String) :
    hasKey m k = false ↔ k ∉ keysOf m := by
  rw [← hasKey_iff]
  cases hasKey m k <;> simp

/-- C10: the normaliser collapses an alias key and its canonical target
key into the single canonical key; iteration order decides which value
survives (the later entry wins, after coercion); and in `query`, a
caller-supplied top-level `limit` is appended after the filters and its
value ends up under `count` even when the filters already carried a
`count`.  First conjunct: normalisation is not injective.  Second: for
every alias pair of the table (`limit`/`count`, `content`/`message`,
`text`/`message`) and every mapping holding both keys, the output has no
alias-source key, exactly one canonical key, and the canonical value is
the (coerced) value of the last input entry whose post-alias key is the
canonical one.  Third: the `query` filter pipeline (`buildQueryFilters`,
then `normalizeParams`, `UnifiedExecutor.ts` lines 169-176) appends
`limit` and its value overwrites the existing `count`. -/
theorem normalize_collapses_aliases :
    (normalizeParams [("limit", Value.num 1)] = normalizeParams [("count", Value.num 1)] ∧
      [("limit", Value.num 1)] ≠ [("count", Value.num 1)]) ∧
    (∀ (a c : String), (a, c) ∈ PARAM_ALIASES →
      ∀ p : ParamMap, hasKey p a = true → hasKey p c = true →
      hasKey (normalizeParams p) a = false ∧
      (keysOf (normalizeParams p)).count c = 1 ∧
      getVal (normalizeParams p) c =
        (p.reverse.find? (fun kv => aliasKey kv.1 == c)).map
          (fun kv => coerceVal c kv.2)) ∧
    (∀ (filters : ParamMap) (n : Int),
      hasKey filters "limit" = false → hasKey filters "count" = true →
      buildQueryFilters filters (some n) = filters ++ [("limit", Value.num n)] ∧
      getVal (normalizeParams (buildQueryFilters filters (some n))) "count" =
        some (Value.str (toString n))) := by
  refine ⟨⟨by rfl, by simp⟩, ?_, ?_⟩
  · intro a c hac p hl hc
    refine ⟨?_, ?_, ?_⟩
    · rw [not_hasKey_iff]
      intro hmem
      rw [normalizeParams_eq_jsBuild] at hmem
      unfold keysOf at hmem
      obtain ⟨kv, hkv, hke⟩ := List.mem_map.mp hmem
      obtain ⟨kv0, _, rfl⟩ := mem_jsBuild _ _ _ _ hkv
      exact aliasKey_ne_source a (List.mem_map.mpr ⟨(a, c), hac, rfl⟩) kv0.1 hke
    · apply List.count_eq_one_of_mem
      · rw [normalizeParams_eq_jsBuild]
        exact nodup_keysOf_jsBuild _ _ _
      · rw [← hasKey_iff]
        rw [hasKey_iff] at hc
        obtain ⟨kv, hm, hk⟩ := List.mem_map.mp hc
        unfold hasKey
        rw [normalizeParams_eq_jsBuild, getVal_jsBuild, Option.isSome_map',
          List.find?_isSome]
        refine ⟨kv, List.mem_reverse.mpr hm, ?_⟩
        simp only [hk]
        simp [aliasKey_target_fixed hac]
    · rw [normalizeParams_eq_jsBuild, getVal_jsBuild]
      cases hf : p.reverse.find? (fun kv => aliasKey kv.1 == c) with
      | none => rfl
      | some kv =>
        have hp := List.find?_some hf
        have : aliasKey kv.1 = c := by simpa using hp
        simp [this]
  · intro filters n hl hc
    rw [not_hasKey_iff] at hl
    have happ : buildQueryFilters filters (some n) = filters ++ [("limit", Value.num n)] :=
      jsSet_of_not_mem _ _ _ hl
    refine ⟨happ, ?_⟩
    rw [happ, normalizeParams_eq_jsBuild, getVal_jsBuild, List.reverse_append,
      List.reverse_singleton, List.singleton_append,
      List.find?_cons_of_pos _ rfl]
    rfl

/-- Witness for the hypotheses of `normalize_collapses_aliases`: with
both `limit` and `count` present the output drops `limit`, with both
`content` and `message` present the output drops `content`, and a
top-level query limit of 9 overwrites a pre-existing `count`. -/
theorem normalize_collapses_aliases_witness :
    hasKey (normalizeParams [("limit", Value.num 1), ("count", Value.num 2)]) "limit" = false ∧
    hasKey (normalizeParams [("content", Value.str "a"), ("message", Value.str "b")]) "content" = false ∧
    getVal (normalizeParams (buildQueryFilters [("count", Value.num 2)] (some 9))) "count" =
      some (Value.str "9") :=
    ⟨(normalize_collapses_aliases.2.1 "limit" "count" (by decide)
      [("limit", Value.num 1), ("count", Value.num 2)] rfl rfl).1,
   (normalize_collapses_aliases.2.1 "content" "message" (by decide)
      [("content", Value.str "a"), ("message", Value.str "b")] rfl rfl).1,
   (normalize_collapses_aliases.2.2 [("count", Value.num 2)] 9 rfl rfl).2⟩

/-! ### Registry facts and the two `resolveAction` claims -/

lemma registry_transforms :
    ∀ oc ∈ OPERATION_MAPPINGS, ∀ aa ∈ oc.2.actions,
      aa.2.transform = none ∨
      (aa.2.transform = some TransformTag.channelCreate ∧ aa.2.paramMap = none) := by
  decide

lemma registry_paramMaps :
    ∀ oc ∈ OPERATION_MAPPINGS, ∀ aa ∈ oc.2.actions,
      "_method" ∉ (aa.2.paramMap.getD []).map Prod.snd ∧
      ((aa.2.paramMap.getD []).map Prod.fst).Nodup := by
  decide

lemma getActionMapping_mem {op act : String} {ac : ActionMapping}
    (h : getActionMapping op act = some ac) :
    ∃ cfg, (op, cfg) ∈ OPERATION_MAPPINGS ∧ (act, ac) ∈ cfg.actions := by
  unfold getActionMapping at h
  cases hc : lookupStr OPERATION_MAPPINGS op with
  | none => rw [hc] at h; exact absurd h (by simp)
  | some cfg =>
    rw [hc] at h
    exact ⟨cfg, lookupStr_mem hc, lookupStr_mem h⟩

lemma transform_cases {op act : String} {ac : ActionMapping}
    (h : getActionMapping op act = some ac) :
    ac.transform = none ∨
    (ac.transform = some TransformTag.channelCreate ∧ ac.paramMap = none) := by
  obtain ⟨cfg, h1, h2⟩ := getActionMapping_mem h
  exact registry_transforms (op, cfg) h1 (act, ac) h2

lemma paramMap_facts {op act : String} {ac : ActionMapping}
    (h : getActionMapping op act = some ac) :
    "_method" ∉ (ac.paramMap.getD []).map Prod.snd ∧
    ((ac.paramMap.getD []).map Prod.fst).Nodup := by
  obtain ⟨cfg, h1, h2⟩ := getActionMapping_mem h
  exact registry_paramMaps (op, cfg) h1 (act, ac) h2

lemma renameKey_eq_of_mem {pm : List (String × String)} {s t : String}
    (hnd : (pm.map Prod.fst).Nodup) (hmem : (s, t) ∈ pm) : renameKey pm s = t := by
  unfold renameKey
  cases hf : lookupStr pm s with
  | none =>
    exfalso
    unfold lookupStr at hf
    rw [Option.map_eq_none', List.find?_eq_none] at hf
    exact absurd (by simp : (((s, t) : String × String).1 == s) = true) (hf _ hmem)
  | some t2 =>
    show t2 = t
    have hmem2 := lookupStr_mem hf
    have h3 : (s, t) = (s, t2) := List.inj_on_of_nodup_map hnd hmem hmem2 rfl
    exact (congrArg Prod.snd h3).symm

lemma renameKey_eq_self {pm : List (String × String)} {k : String}
    (h : k ∉ pm.map Prod.fst) : renameKey pm k = k := by
  unfold renameKey
  cases hf : lookupStr pm k with
  | none => rfl
  | some t2 =>
    exact absurd (List.mem_map.mpr ⟨(k, t2), lookupStr_mem hf, rfl⟩) h

lemma getVal_applyParamMap (pm : List (String × String)) (p : ParamMap) (k : String)
    (hk : k ∈ keysOf p)
    (hinj : (p.map (fun kv => renameKey pm kv.1)).Nodup) :
    getVal (applyParamMap pm p) (renameKey pm k) = getVal p k := by
  rw [applyParamMap_eq_jsBuild, jsBuild_eq_map _ _ _ hinj]
  exact getVal_mapKeys p (renameKey pm) k hk hinj

lemma hasKey_deleteKey (m : ParamMap) (k : String) :
    hasKey (deleteKey m k) k = false := by
  rw [not_hasKey_iff]
  intro hmem
  obtain ⟨kv, hkv, hke⟩ := List.mem_map.mp hmem
  unfold deleteKey at hkv
  rw [List.mem_filter] at hkv
  have h2 := hkv.2
  rw [hke] at h2
  simp at h2

lemma deleteKey_append_singleton (m : ParamMap) (k : String) (v : Value)
    (h : k ∉ keysOf m) : deleteKey (m ++ [(k, v)]) k = m := by
  unfold deleteKey
  rw [List.filter_append]
  have h1 : m.filter (fun kv => !(kv.1 == k)) = m := by
    rw [List.filter_eq_self]
    intro kv hkv
    have hne : kv.1 ≠ k := fun he => h (he ▸ List.mem_map.mpr ⟨kv, hkv, rfl⟩)
    simp [hne]
  rw [h1]
  simp

lemma getParam_of_no_key {p : ParamMap} {k : String} (hm : hasKey p k = false) :
    getParam p k = Value.undef := by
  unfold getParam
  unfold hasKey at hm
  cases hgv : getVal p k with
  | none => rfl
  | some v => rw [hgv] at hm; simp at hm

lemma resolveAction_no_transform_no_method {op act : String} {ac : ActionMapping}
    (p : ParamMap) (hac : getActionMapping op act = some ac)
    (ht : ac.transform = none) (hm : hasKey p "_method" = false) :
    resolveAction op act p = some (ac.method,
      match ac.paramMap with
      | some pm => applyParamMap pm p
      | none => p) := by
  simp only [resolveAction, hac, ht, getParam_of_no_key hm]
  rfl

lemma lookupStr_default_ne {tbl : List (String × String)} {t d : String}
    (htbl : ∀ e ∈ tbl, e.2 ≠ "") (hd : d ≠ "") :
    (match lookupStr tbl t with | some m => m | none => d) ≠ "" := by
  cases hf : lookupStr tbl t with
  | none => exact hd
  | some m => exact htbl _ (lookupStr_mem hf)

lemma channelCreateTransform_adds_method (p : ParamMap) :
    ∃ m : String, m ≠ "" ∧ channelCreateTransform p = jsSet p "_method" (Value.str m) := by
  refine ⟨_, ?_, rfl⟩
  exact lookupStr_default_ne (by decide) (by decide)

lemma resolveAction_channelCreate {op act : String} {ac : ActionMapping}
    (p : ParamMap) (hac : getActionMapping op act = some ac)
    (ht : ac.transform = some TransformTag.channelCreate) (hpm : ac.paramMap = none)
    (hm : hasKey p "_method" = false) :
    ∃ m : String, m ≠ "" ∧ resolveAction op act p = some (m, p) := by
  obtain ⟨m, hne, heq⟩ := channelCreateTransform_adds_method p
  refine ⟨m, hne, ?_⟩
  have hg : getParam (jsSet p "_method" (Value.str m)) "_method" = Value.str m := by
    unfold getParam
    rw [getVal_jsSet_self]
  have htr : jsTruthy (Value.str m) = true := by
    simp [jsTruthy, hne]
  have hdel : deleteKey (jsSet p "_method" (Value.str m)) "_method" = p := by
    rw [jsSet_of_not_mem _ _ _ ((not_hasKey_iff p "_method").mp hm)]
    exact deleteKey_append_singleton _ _ _ ((not_hasKey_iff p "_method").mp hm)
  simp only [resolveAction, hac, ht, applyTransformTag, heq, hg, htr, if_true, hpm, hdel]
  rfl

/-- C5, counterexample: the claim "for every registered (category,
action) pair and every parameter mapping, `resolveAction` ... renames
every present source key to its target and passes every key not in the
rename table through unchanged" fails at a concrete input: for
`message.send` (rename table `content -> message`) with parameters
`{_method: "boom", content: "a", message: "b"}`, the resolved operation
name is `"boom"` (not `sendMessage`), the value of `content` does not
survive under `message` (the later `message` entry wins), and the
`_method` key — not in the rename table — does not pass through. -/
theorem resolveAction_renames_counterexample :
    resolveAction "message" "send"
      [("_method", Value.str "boom"), ("content", Value.str "a"), ("message", Value.str "b")] =
      some ("boom", [("message", Value.str "b")]) ∧
    getVal [("_method", Value.str "boom"), ("content", Value.str "a"),
      ("message", Value.str "b")] "content" = some (Value.str "a") ∧
    getVal [("message", Value.str "b")] "message" ≠ some (Value.str "a") ∧
    hasKey [("message", Value.str "b")] "_method" = false := by
  refine ⟨rfl, rfl, ?_, rfl⟩
  intro h
  exact Value.noConfusion (Option.some.injEq _ _ ▸ h : Value.str "b" = Value.str "a")
    (fun hs => by exact absurd hs (by decide))

/-- C5, amended: for every registered (category, action) pair and every
parameter mapping that carries no `_method` key and in which no two keys
are renamed to the same output key, `resolveAction` returns a non-null
operation name together with parameters in which every rename-table
entry whose source key is present moved its value to the target key, and
every key outside the rename table's sources passed through unchanged. -/
theorem resolveAction_renames (op act : String) (ac : ActionMapping) (p : ParamMap)
    (hac : getActionMapping op act = some ac)
    (hm : hasKey p "_method" = false)
    (hinj : (p.map (fun kv => renameKey (ac.paramMap.getD []) kv.1)).Nodup) :
    (resolveAction op act p).isSome = true ∧
    ∀ m q, resolveAction op act p = some (m, q) →
      (∀ s t, (s, t) ∈ ac.paramMap.getD [] → hasKey p s = true → getVal q t = getVal p s) ∧
      (∀ k, hasKey p k = true → k ∉ (ac.paramMap.getD []).map Prod.fst →
        getVal q k = getVal p k) := by
  have hnd := (paramMap_facts hac).2
  rcases transform_cases hac with ht | ⟨ht, hpm⟩
  · have he := resolveAction_no_transform_no_method p hac ht hm
    refine ⟨by rw [he]; rfl, ?_⟩
    intro m q hq
    rw [he] at hq
    have hq2 : q = (match ac.paramMap with
        | some pm => applyParamMap pm p
        | none => p) := by
      have := (Option.some.injEq _ _ ▸ hq : (ac.method, _) = (m, q))
      exact (congrArg Prod.snd this).symm
    subst hq2
    cases hpm : ac.paramMap with
    | none =>
      refine ⟨?_, ?_⟩
      · intro s t hst
        simp only [Option.getD_none] at hst
        exact absurd hst (List.not_mem_nil _)
      · intro k _ _
        rfl
    | some pm =>
      rw [hpm] at hnd hinj
      simp only [Option.getD_some] at hnd hinj
      simp only [Option.getD_some]
      constructor
      · intro s t hst hs
        have hr : renameKey pm s = t := renameKey_eq_of_mem hnd hst
        rw [← hr]
        exact getVal_applyParamMap pm p s ((hasKey_iff p s).mp hs) hinj
      · intro k hk hkn
        have hr : renameKey pm k = k := renameKey_eq_self hkn
        conv_lhs => rw [show k = renameKey pm k from hr.symm]
        exact getVal_applyParamMap pm p k ((hasKey_iff p k).mp hk) hinj
  · obtain ⟨m0, hne, he⟩ := resolveAction_channelCreate p hac ht hpm hm
    refine ⟨by rw [he]; rfl, ?_⟩
    intro m q hq
    rw [he] at hq
    have hq2 : q = p := by
      have := (Option.some.injEq _ _ ▸ hq : (m0, p) = (m, q))
      exact (congrArg Prod.snd this).symm
    subst hq2
    rw [hpm]
    exact ⟨fun s t hst _ => absurd hst (List.not_mem_nil _),
      fun k _ _ => rfl⟩

/-- Witness for `resolveAction_renames` at `message.send` with
`{channelId: "123", content: "hi"}`: the `content` value reappears under
`message`, and `channelId` passes through. -/
theorem resolveAction_renames_witness :
    getVal [("channelId", Value.str "123"), ("message", Value.str "hi")] "message" =
      getVal [("channelId", Value.str "123"), ("content", Value.str "hi")] "content" ∧
    getVal [("channelId", Value.str "123"), ("message", Value.str "hi")] "channelId" =
      getVal [("channelId", Value.str "123"), ("content", Value.str "hi")] "channelId" := by
  have h := (resolveAction_renames "message" "send"
      { method := "sendMessage", paramMap := some [("content", "message")] }
      [("channelId", Value.str "123"), ("content", Value.str "hi")]
      rfl rfl (by decide)).2
      "sendMessage" [("channelId", Value.str "123"), ("message", Value.str "hi")] rfl
  exact ⟨h.1 "content" "message" (by simp) rfl, h.2 "channelId" rfl (by decide)⟩

/-- C9: for every registered (category, action) pair whose mapping
declares no transform, a truthy `_method` parameter overrides the
statically declared operation name: `resolveAction` returns the
`_method` value (as the method-name string the lookup would use) and the
remaining parameters with `_method` deleted (then renamed as usual);
the returned parameters never contain `_method`. -/
theorem resolveAction_method_override (op act : String) (ac : ActionMapping)
    (p : ParamMap) (v : Value)
    (hac : getActionMapping op act = some ac) (ht : ac.transform = none)
    (hv : getVal p "_method" = some v) (htr : jsTruthy v = true) :
    resolveAction op act p =
      some (jsKeyString v,
        match ac.paramMap with
        | some pm => applyParamMap pm (deleteKey p "_method")
        | none => deleteKey p "_method") ∧
    hasKey (match ac.paramMap with
        | some pm => applyParamMap pm (deleteKey p "_method")
        | none => deleteKey p "_method") "_method" = false := by
  constructor
  · have hg : getParam p "_method" = v := by
      unfold getParam
      rw [hv]
    simp only [resolveAction, hac, ht, hg, htr, if_true]
  · cases hpm : ac.paramMap with
    | none => exact hasKey_deleteKey p "_method"
    | some pm =>
      rw [not_hasKey_iff]
      intro hmem
      dsimp only at hmem
      rw [applyParamMap_eq_jsBuild] at hmem
      unfold keysOf at hmem
      obtain ⟨kv, hkv, hke⟩ := List.mem_map.mp hmem
      obtain ⟨kv0, hkv0, rfl⟩ := mem_jsBuild _ _ _ _ hkv
      simp only at hke
      by_cases hd : kv0.1 ∈ pm.map Prod.fst
      · obtain ⟨e, he, hee⟩ := List.mem_map.mp hd
        have hre : renameKey pm kv0.1 = e.2 := by
          have hnd := (paramMap_facts hac).2
          rw [hpm] at hnd
          simp only [Option.getD_some] at hnd
          exact renameKey_eq_of_mem hnd (by
            have : e = (kv0.1, e.2) := by
              obtain ⟨e1, e2⟩ := e
              simp only at hee
              subst hee
              rfl
            exact this ▸ he)
        have hm2 := (paramMap_facts hac).1
        rw [hpm] at hm2
        simp only [Option.getD_some] at hm2
        refine hm2 (List.mem_map.mpr ⟨e, he, ?_⟩)
        rw [← hke, hre]
      · have hre : renameKey pm kv0.1 = kv0.1 := renameKey_eq_self hd
        rw [hre] at hke
        have : hasKey (deleteKey p "_method") "_method" = false := hasKey_deleteKey p "_method"
        rw [not_hasKey_iff] at this
        exact this (List.mem_map.mpr ⟨kv0, hkv0, hke⟩)

/-- Witness for `resolveAction_method_override`: `message.pin` with a
truthy `_method` of `"boom"` resolves to operation `"boom"` with the
`_method` key removed. -/
theorem resolveAction_method_override_witness :
    resolveAction "message" "pin"
      [("_method", Value.str "boom"), ("channelId", Value.str "1")] =
      some ("boom", [("channelId", Value.str "1")]) :=
  (resolveAction_method_override "message" "pin" { method := "pinMessage" }
    [("_method", Value.str "boom"), ("channelId", Value.str "1")]
    (Value.str "boom") rfl rfl rfl rfl).1

/-! ### Validation and fault containment in the dispatcher -/

lemma contains_true_iff (l : List String) (a : String) :
    l.contains a = true ↔ a ∈ l :=
  List.elem_iff

lemma contains_false_iff (l : List String) (a : String) :
    l.contains a = false ↔ a ∉ l := by
  rw [← contains_true_iff]
  cases l.contains a <;> simp

/-- C2: an unregistered category short-circuits `execute` into a failure
whose error message lists exactly the registered category names, and an
unregistered action within a registered category does the same with that
category's registered action names; both results are independent of the
collaborator (`am`) and of the parameters, so no normalisation,
resolution, or underlying operation is ever reached. -/
theorem execute_invalid_inputs :
    (∀ (am : AutomationManager) (op act : String) (p : ParamMap),
      op ∉ getValidOperations →
      execute am ⟨op, act, p⟩ =
        { success := false,
          error := some ("Invalid operation: '" ++ op ++ "'. Valid operations: "
            ++ String.intercalate ", " getValidOperations) }) ∧
    (∀ (am : AutomationManager) (op act : String) (p : ParamMap),
      op ∈ getValidOperations → act ∉ getValidActions op →
      execute am ⟨op, act, p⟩ =
        { success := false,
          error := some ("Invalid action '" ++ act ++ "' for operation '" ++ op
            ++ "'. Valid actions: " ++ String.intercalate ", " (getValidActions op)) }) := by
  constructor
  · intro am op act p h
    simp [execute, h]
  · intro am op act p h1 h2
    simp [execute, h1, h2]

/-- Witness for `execute_invalid_inputs` at the unregistered category
`"bogus"` and the unregistered action `message.bogus`. -/
theorem execute_invalid_inputs_witness :
    execute ⟨fun _ => none⟩ ⟨"bogus", "send", []⟩ =
      { success := false,
        error := some ("Invalid operation: '" ++ "bogus" ++ "'. Valid operations: "
          ++ String.intercalate ", " getValidOperations) } ∧
    execute ⟨fun _ => none⟩ ⟨"message", "bogus", []⟩ =
      { success := false,
        error := some ("Invalid action '" ++ "bogus" ++ "' for operation '" ++ "message"
          ++ "'. Valid actions: " ++ String.intercalate ", " (getValidActions "message")) } :=
  ⟨execute_invalid_inputs.1 ⟨fun _ => none⟩ "bogus" "send" [] (by decide),
   execute_invalid_inputs.2 ⟨fun _ => none⟩ "message" "bogus" [] (by decide) (by decide)⟩

/-- The well-formed shape of an `ExecutionResult`: success carries a
payload and no error; failure carries an error message and no payload. -/
def wellFormedResult (r : ExecutionResult) : Prop :=
  (r.success = true ∧ r.data.isSome = true ∧ r.error = none) ∨
  (r.success = false ∧ r.data = none ∧ r.error.isSome = true)

lemma execute_wellFormed (am : AutomationManager) (p : ExecuteParams) :
    wellFormedResult (execute am p) := by
  unfold execute wellFormedResult
  split
  · exact Or.inr ⟨rfl, rfl, rfl⟩
  · dsimp only
    split
    · exact Or.inr ⟨rfl, rfl, rfl⟩
    · split
      · exact Or.inr ⟨rfl, rfl, rfl⟩
      · split
        · exact Or.inl ⟨rfl, rfl, rfl⟩
        · exact Or.inr ⟨rfl, rfl, rfl⟩

lemma query_wellFormed (am : AutomationManager) (q : QueryParams) :
    wellFormedResult (query am q) := by
  unfold query wellFormedResult
  split
  · exact Or.inr ⟨rfl, rfl, rfl⟩
  · dsimp only
    split
    · exact Or.inr ⟨rfl, rfl, rfl⟩
    · split
      · exact Or.inl ⟨rfl, rfl, rfl⟩
      · exact Or.inr ⟨rfl, rfl, rfl⟩

lemma batchGo_invariants (am : AutomationManager) (so : Bool) :
    ∀ (ops : List BatchOperation) (acc : List ExecutionResult) (c f : Nat),
      (∀ r ∈ acc, wellFormedResult r) → c + f = acc.length →
      (∀ r ∈ (batchGo am so ops acc c f).1, wellFormedResult r) ∧
      (batchGo am so ops acc c f).2.1 + (batchGo am so ops acc c f).2.2 =
        (batchGo am so ops acc c f).1.length := by
  intro ops
  induction ops with
  | nil =>
    intro acc c f h1 h2
    exact ⟨h1, h2⟩
  | cons op rest ih =>
    intro acc c f h1 h2
    have hwf : wellFormedResult (execOf am op) := execute_wellFormed am _
    have hmem : ∀ r ∈ acc ++ [execOf am op], wellFormedResult r := by
      intro r hr
      rcases List.mem_append.mp hr with hr | hr
      · exact h1 r hr
      · rw [List.mem_singleton] at hr
        exact hr ▸ hwf
    have hlen : acc.length + 1 = (acc ++ [execOf am op]).length := by
      simp
    unfold batchGo
    dsimp only
    split
    · exact ih (acc ++ [execOf am op]) (c + 1) f hmem (by simp; omega)
    · split
      · refine ⟨hmem, ?_⟩
        simp
        omega
      · exact ih (acc ++ [execOf am op]) c (f + 1) hmem (by simp; omega)

/-- C1: the dispatcher never lets a fault escape.  `execute`, `query`
and `batch` are total functions into well-formed result values for every
collaborator, every request (registered or not) and every parameter
mapping; and a failure raised by the underlying operation (including a
missing method) surfaces exactly as `{success := false, error := some
msg}` with the operation's message — from `execute` (conjunct 4) and
from `query` (conjunct 5) alike. -/
theorem dispatcher_never_throws :
    (∀ (am : AutomationManager) (p : ExecuteParams), wellFormedResult (execute am p)) ∧
    (∀ (am : AutomationManager) (q : QueryParams), wellFormedResult (query am q)) ∧
    (∀ (am : AutomationManager) (b : BatchParams),
      (∀ r ∈ (batch am b).results, wellFormedResult r) ∧
      (batch am b).completedCount + (batch am b).failedCount = (batch am b).results.length ∧
      (batch am b).success = ((batch am b).failedCount == 0)) ∧
    (∀ (am : AutomationManager) (op act : String) (pr : ParamMap) (m : String)
      (rp : ParamMap) (msg : String),
      op ∈ getValidOperations → act ∈ getValidActions op →
      resolveAction op act (normalizeParams pr) = some (m, rp) →
      callMethod am m rp = Except.error msg →
      execute am ⟨op, act, pr⟩ = { success := false, error := some msg }) ∧
    (∀ (am : AutomationManager) (resource : String) (filters : ParamMap)
      (limit : Option Int) (m : String) (rp : ParamMap) (msg : String),
      resource ∈ getValidQueryResources →
      resolveQuery resource (normalizeParams (buildQueryFilters filters limit)) = some (m, rp) →
      callMethod am m rp = Except.error msg →
      query am ⟨resource, filters, limit⟩ = { success := false, error := some msg }) := by
  refine ⟨execute_wellFormed, query_wellFormed, ?_, ?_, ?_⟩
  · intro am b
    have h := batchGo_invariants am (b.stopOnError.getD true) b.operations [] 0 0
      (by intro r hr; exact absurd hr (List.not_mem_nil r)) rfl
    unfold batch
    dsimp only
    cases hg : batchGo am (b.stopOnError.getD true) b.operations [] 0 0 with
    | mk results rest =>
      obtain ⟨c, f⟩ := rest
      rw [hg] at h
      exact ⟨h.1, h.2, rfl⟩
  · intro am op act pr m rp msg h1 h2 h3 h4
    simp [execute, h1, h2, h3, h4]
  · intro am resource filters limit m rp msg h1 h3 h4
    simp [query, h1, h3, h4]

/-- Witness for `dispatcher_never_throws`: with an empty collaborator,
`message.send` resolves to `sendMessage` and the `messages` query to
`readMessages`; both lookup failures surface as failure results carrying
the thrown message. -/
theorem dispatcher_never_throws_witness :
    execute ⟨fun _ => none⟩ ⟨"message", "send", []⟩ =
      { success := false,
        error := some "Method 'sendMessage' not found in AutomationManager" } ∧
    query ⟨fun _ => none⟩ ⟨"messages", [], none⟩ =
      { success := false,
        error := some "Method 'readMessages' not found in AutomationManager" } :=
  ⟨dispatcher_never_throws.2.2.2.1 ⟨fun _ => none⟩ "message" "send" [] "sendMessage" []
      "Method 'sendMessage' not found in AutomationManager"
      (by decide) (by decide) rfl rfl,
   dispatcher_never_throws.2.2.2.2 ⟨fun _ => none⟩ "messages" [] none "readMessages" []
      "Method 'readMessages' not found in AutomationManager"
      (by decide) rfl rfl⟩

/-! ### Batch semantics -/

lemma batchGo_stop_spec (am : AutomationManager) (x : BatchOperation)
    (post : List BatchOperation) (hx : (execOf am x).success = false) :
    ∀ (pre : List BatchOperation) (acc : List ExecutionResult) (c f : Nat),
      (∀ q ∈ pre, (execOf am q).success = true) →
      batchGo am true (pre ++ x :: post) acc c f =
        (acc ++ pre.map (execOf am) ++ [execOf am x], c + pre.length, f + 1) := by
  intro pre
  induction pre with
  | nil =>
    intro acc c f _
    unfold batchGo
    simp only [List.nil_append]
    rw [hx]
    simp
  | cons q rest ih =>
    intro acc c f hpre
    have hq : (execOf am q).success = true := hpre q (by simp)
    unfold batchGo
    simp only [List.cons_append]
    rw [hq]
    simp only [if_true]
    rw [ih (acc ++ [execOf am q]) (c + 1) f (fun r hr => hpre r (by simp [hr]))]
    refine congrArg₂ Prod.mk ?_ (congrArg₂ Prod.mk ?_ rfl)
    · simp
    · simp
      omega

lemma batchGo_continue_spec (am : AutomationManager) :
    ∀ (ops : List BatchOperation) (acc : List ExecutionResult) (c f : Nat),
      batchGo am false ops acc c f =
        (acc ++ ops.map (execOf am),
         c + (ops.map (execOf am)).countP (fun r => r.success),
         f + (ops.map (execOf am)).countP (fun r => !r.success)) := by
  intro ops
  induction ops with
  | nil =>
    intro acc c f
    simp [batchGo]
  | cons op rest ih =>
    intro acc c f
    unfold batchGo
    dsimp only
    by_cases h : (execOf am op).success = true
    · rw [h]
      simp only [if_true]
      rw [ih (acc ++ [execOf am op]) (c + 1) f]
      refine congrArg₂ Prod.mk ?_ (congrArg₂ Prod.mk ?_ ?_)
      · simp
      · simp [List.countP_cons, h]
        omega
      · simp [List.countP_cons, h]
    · have h' : (execOf am op).success = false := by
        cases hs : (execOf am op).success
        · rfl
        · exact absurd hs h
      rw [h']
      simp only [Bool.false_eq_true, if_false]
      rw [ih (acc ++ [execOf am op]) c (f + 1)]
      refine congrArg₂ Prod.mk ?_ (congrArg₂ Prod.mk ?_ ?_)
      · simp
      · simp [List.countP_cons, h']
      · simp [List.countP_cons, h']
        omega

/-- C3: with `stopOnError` true or omitted (the default), the batch loop
runs strictly in input order and halts right after the first failure:
when every request of `pre` succeeds and `x` fails, the result holds one
`ExecutionResult` per element of `pre` plus the failure, `completedCount
= pre.length`, `failedCount = 1`, `success = false` — and the requests
after the failure do not occur in the result at all (the right-hand side
does not depend on `post`, so their underlying operations are never
invoked). -/
theorem batch_stop_on_error (am : AutomationManager) (pre post : List BatchOperation)
    (x : BatchOperation) (so : Option Bool) (hso : so.getD true = true)
    (hpre : ∀ q ∈ pre, (execOf am q).success = true)
    (hx : (execOf am x).success = false) :
    batch am { operations := pre ++ x :: post, stopOnError := so } =
      { success := false,
        results := pre.map (execOf am) ++ [execOf am x],
        completedCount := pre.length,
        failedCount := 1 } := by
  unfold batch
  dsimp only
  rw [hso, batchGo_stop_spec am x post hx pre [] 0 0 hpre]
  simp

/-- The collaborator used by the concrete batch scenarios: it implements
exactly `sendMessage`, which always succeeds. -/
def amFix : AutomationManager :=
  ⟨fun name => if name == "sendMessage" then some (fun _ => Except.ok (Value.str "sent")) else none⟩

/-- A batch request that succeeds against `amFix`. -/
def bOk : BatchOperation :=
  ⟨"message", "send", [("channelId", Value.str "1"), ("content", Value.str "hi")]⟩

/-- A batch request that fails (unregistered category). -/
def bBad : BatchOperation := ⟨"bogus", "send", []⟩

/-- Witness for `batch_stop_on_error`: three requests whose second
fails, with the default (omitted) `stopOnError`: two results, one
completed, one failed, overall failure. -/
theorem batch_stop_on_error_witness :
    batch amFix { operations := [bOk, bBad, bOk], stopOnError := none } =
      { success := false,
        results := [bOk].map (execOf amFix) ++ [execOf amFix bBad],
        completedCount := 1,
        failedCount := 1 } :=
  batch_stop_on_error amFix [bOk] [bOk] bBad none rfl (by decide) (by decide)

/-- C4: with `stopOnError` false every request is attempted exactly once
in input order: one result per request, `completedCount` counts the
successes, `failedCount` the failures, and `success` holds iff
`failedCount` is zero; in particular for the three fixture requests
whose second fails the counts are 3 / 2 / 1 and `success` is false. -/
theorem batch_continue_on_error :
    (∀ (am : AutomationManager) (ops : List BatchOperation),
      batch am { operations := ops, stopOnError := some false } =
        { success := ((ops.map (execOf am)).countP (fun r => !r.success) == 0),
          results := ops.map (execOf am),
          completedCount := (ops.map (execOf am)).countP (fun r => r.success),
          failedCount := (ops.map (execOf am)).countP (fun r => !r.success) }) ∧
    (batch amFix { operations := [bOk, bBad, bOk], stopOnError := some false }).results.length = 3 ∧
    (batch amFix { operations := [bOk, bBad, bOk], stopOnError := some false }).completedCount = 2 ∧
    (batch amFix { operations := [bOk, bBad, bOk], stopOnError := some false }).failedCount = 1 ∧
    (batch amFix { operations := [bOk, bBad, bOk], stopOnError := some false }).success = false := by
  refine ⟨?_, by decide, by decide, by decide, by decide⟩
  intro am ops
  unfold batch
  dsimp only
  rw [show (some false).getD true = false from rfl, batchGo_continue_spec am ops [] 0 0]
  simp

/-! ### End-to-end message.send and packed-options positioning -/

/-- C6: executing `{category: "message", action: "send", parameters:
{channelId: "123", content: "hi"}}` resolves to the `sendMessage`
operation and invokes it with exactly the positional argument list
`("123", "hi")` — the `content` key having been renamed to the canonical
`message` key before positional ordering; the result is the wrapped
outcome of that single invocation, for every collaborator implementing
`sendMessage`. -/
theorem execute_message_send_e2e (am : AutomationManager)
    (f : List Value → Except String Value)
    (hf : am.methods "sendMessage" = some f) :
    execute am ⟨"message", "send",
        [("channelId", Value.str "123"), ("content", Value.str "hi")]⟩ =
      match f [Value.str "123", Value.str "hi"] with
      | Except.ok v => { success := true, data := some v }
      | Except.error e => { success := false, error := some e } := by
  have h0 : execute am ⟨"message", "send",
      [("channelId", Value.str "123"), ("content", Value.str "hi")]⟩ =
      match callMethod am "sendMessage"
          [("channelId", Value.str "123"), ("message", Value.str "hi")] with
      | Except.ok v => { success := true, data := some v }
      | Except.error e => { success := false, error := some e } := rfl
  rw [h0]
  unfold callMethod
  rw [hf]
  rfl

/-- Witness for `execute_message_send_e2e` with the fixture collaborator
whose `sendMessage` always returns `"sent"`. -/
theorem execute_message_send_e2e_witness :
    execute amFix ⟨"message", "send",
        [("channelId", Value.str "123"), ("content", Value.str "hi")]⟩ =
      { success := true, data := some (Value.str "sent") } :=
  execute_message_send_e2e amFix (fun _ => Except.ok (Value.str "sent")) rfl

/-- The packed-options input of the spec's scenario:
`{topic: "t", nsfw: true, unrelated: "x"}`. -/
def pOpts : ParamMap :=
  [("topic", Value.str "t"), ("nsfw", Value.boolean true), ("unrelated", Value.str "x")]

/-- C7: for every operation whose declared order has an `options` slot,
positioning `{topic: "t", nsfw: true, unrelated: "x"}` yields the
declared order with exactly `{topic, nsfw}` packed at the options slot
and `undefined` at every other slot — the undeclared `unrelated` key
appears nowhere in the argument list; and whenever no optional sub-key
is present, the options slot holds `undefined` while all other declared
keys are emitted directly. -/
theorem extract_options_packing :
    (∀ (name : String) (order : List String),
      lookupStr parameterOrders name = some order →
      order.contains "options" = true →
      extractParamValues name pOpts =
        order.map (fun key =>
          if key == "options" then
            Value.obj [("topic", Value.str "t"), ("nsfw", Value.boolean true)]
          else Value.undef) ∧
      Value.str "x" ∉ extractParamValues name pOpts) ∧
    (∀ (name : String) (order : List String) (p : ParamMap),
      lookupStr parameterOrders name = some order →
      order.contains "options" = true →
      (∀ k ∈ optionKeys, isDefined (getParam p k) = false) →
      extractParamValues name p =
        order.map (fun key => if key == "options" then Value.undef else getParam p key)) := by
  constructor
  · intro name order h1 h2
    have hmem := lookupStr_mem h1
    have htable : ∀ e ∈ parameterOrders, e.2.contains "options" = true →
        "topic" ∉ e.2 ∧ "nsfw" ∉ e.2 ∧ "unrelated" ∉ e.2 := by decide
    obtain ⟨hd1, hd2, hd3⟩ := htable _ hmem h2
    have hopt : packOptions pOpts =
        [("topic", Value.str "t"), ("nsfw", Value.boolean true)] := rfl
    have ha : extractParamValues name pOpts =
        order.map (fun key =>
          if key == "options" then
            Value.obj [("topic", Value.str "t"), ("nsfw", Value.boolean true)]
          else Value.undef) := by
      unfold extractParamValues
      rw [h1]
      dsimp only
      rw [h2]
      simp only [if_true, hopt]
      apply List.map_congr_left
      intro k hk
      by_cases hko : k == "options"
      · rw [if_pos hko, if_pos hko]
        rfl
      · rw [if_neg hko, if_neg hko]
        have hne1 : k ≠ "topic" := fun he => hd1 (he ▸ hk)
        have hne2 : k ≠ "nsfw" := fun he => hd2 (he ▸ hk)
        have hne3 : k ≠ "unrelated" := fun he => hd3 (he ▸ hk)
        simp [getParam, getVal, pOpts, List.find?,
          beq_eq_false_iff_ne.mpr (fun he => hne1 he.symm),
          beq_eq_false_iff_ne.mpr (fun he => hne2 he.symm),
          beq_eq_false_iff_ne.mpr (fun he => hne3 he.symm)]
    refine ⟨ha, ?_⟩
    rw [ha]
    intro hmem2
    obtain ⟨k, _, heq⟩ := List.mem_map.mp hmem2
    by_cases hko : k == "options"
    · rw [if_pos hko] at heq
      exact Value.noConfusion heq
    · rw [if_neg hko] at heq
      exact Value.noConfusion heq
  · intro name order p h1 h2 hno
    have hopt : packOptions p = [] := by
      unfold packOptions
      have hgen : ∀ (ks : List String) (acc : ParamMap),
          (∀ k ∈ ks, isDefined (getParam p k) = false) →
          ks.foldl (fun options key =>
            if isDefined (getParam p key) then jsSet options key (getParam p key)
            else options) acc = acc := by
        intro ks
        induction ks with
        | nil => intro acc _; rfl
        | cons k rest ih =>
          intro acc hall
          have hk := hall k (by simp)
          simp only [List.foldl_cons, hk, Bool.false_eq_true, if_false]
          exact ih acc (fun k2 hk2 => hall k2 (by simp [hk2]))
      exact hgen optionKeys [] hno
    unfold extractParamValues
    rw [h1]
    dsimp only
    rw [h2]
    simp only [if_true, hopt]
    rfl

/-- Witness for `extract_options_packing` at `createForumChannel`
(order `guildId, name, categoryId, options`), in the populated and the
empty case. -/
theorem extract_options_packing_witness :
    extractParamValues "createForumChannel" pOpts =
      [Value.undef, Value.undef, Value.undef,
       Value.obj [("topic", Value.str "t"), ("nsfw", Value.boolean true)]] ∧
    extractParamValues "createForumChannel" [] =
      [Value.undef, Value.undef, Value.undef, Value.undef] := by
  constructor
  · exact ((extract_options_packing.1 "createForumChannel"
      ["guildId", "name", "categoryId", "options"] rfl rfl).1).trans rfl
  · exact (extract_options_packing.2 "createForumChannel"
      ["guildId", "name", "categoryId", "options"] [] rfl rfl
      (fun k _ => rfl)).trans rfl

end DiscordMCP
